import Mathlib

/-
Verification of the serialcxx line-oriented serial I/O layer.

The repository ships a demonstration driver (src/src/main.cpp) exercising the
serialcxx library: opening two ports, configuring timeouts, building a
Listener with a registered callback, and moving delimiter-terminated lines
between the ports.  The library core itself is not part of the visible
sources, so the definitions below model it from the specification: ports are
value states carrying the sequence of outcomes the OS will hand to successive
underlying reads, and read_line / the Listener loop are recursive functions
over that sequence.
-/

namespace Serialcxx

/-- Modelled from the spec: the closed error enumeration shared by every I/O
operation (named SerialError in the library headers that main.cpp includes);
NoErr is the only success value. -/
inductive SerialError
  | NoErr
  | Timeout
  | Disconnected
  | IOError
deriving DecidableEq, Repr

/-- Modelled from the spec: value type returned by every read operation,
pairing the byte count read during this call with the error kind. -/
structure ReadResult where
  bytes_read : Nat
  error : SerialError
deriving DecidableEq, Repr

/-- Modelled from the spec: the outcome of one underlying blocking read on the
OS serial handle, as the transport will deliver them in order: a chunk of
bytes, an expiry of the configured timeout with no data, a disconnection of
the device, or another OS-level failure. -/
inductive ReadEvent
  | chunk (data : List Char)
  | timeout
  | disconnected
  | ioError
deriving DecidableEq, Repr

/-- Modelled from the spec: a Port owns the OS serial handle with its
configured timeout, a flag recording that the device is gone (Disconnected is
fatal for the Port), the LineAccumulator of pending bytes not yet delimited,
and the pending sequence of underlying read outcomes the OS will deliver. -/
structure Port where
  timeout : ℚ
  disconnected : Bool
  accum : List Char
  incoming : List ReadEvent
deriving DecidableEq, Repr

/-- The bytes an underlying read event carries. -/
def eventBytes : ReadEvent → List Char
  | ReadEvent.chunk d => d
  | _ => []

/-- The bytes still to arrive on a pending event sequence. -/
def streamBytes (es : List ReadEvent) : List Char :=
  (es.map eventBytes).flatten

/-- Split a byte sequence at the first line delimiter; the returned line
includes the delimiter, the second component is everything after it. -/
def splitAtDelim : List Char → Option (List Char × List Char)
  | [] => none
  | c :: rest =>
    if c = '\n' then some ([c], rest)
    else
      match splitAtDelim rest with
      | some (line, r) => some (c :: line, r)
      | none => none

/-- Everything one read_line call produces: the ReadResult, the extracted line
(empty unless NoErr), the LineAccumulator afterwards, and the events not yet
consumed. -/
structure LineOutcome where
  result : ReadResult
  line : List Char
  accum : List Char
  remaining : List ReadEvent
deriving DecidableEq, Repr

/-- Modelled from the spec: the loop inside read_line.  It first checks the
LineAccumulator for a complete line; otherwise it performs underlying reads,
appending each chunk to the accumulator, until a delimiter is observed, the
timeout elapses, or a fatal outcome arrives.  bytes_read counts only bytes
received during this call; on a non-success outcome the accumulated partial
content is kept, not discarded. -/
def read_line_aux : List ReadEvent → List Char → Nat → LineOutcome
  | [], accum, n =>
    match splitAtDelim accum with
    | some (line, rest) => ⟨⟨n, SerialError.NoErr⟩, line, rest, []⟩
    | none => ⟨⟨n, SerialError.Timeout⟩, [], accum, []⟩
  | e :: es, accum, n =>
    match splitAtDelim accum with
    | some (line, rest) => ⟨⟨n, SerialError.NoErr⟩, line, rest, e :: es⟩
    | none =>
      match e with
      | ReadEvent.chunk d => read_line_aux es (accum ++ d) (n + d.length)
      | ReadEvent.timeout => ⟨⟨n, SerialError.Timeout⟩, [], accum, es⟩
      | ReadEvent.disconnected => ⟨⟨n, SerialError.Disconnected⟩, [], accum, es⟩
      | ReadEvent.ioError => ⟨⟨n, SerialError.IOError⟩, [], accum, es⟩

/-- Modelled from the spec: read_line on a Port.  A Port that has observed
Disconnected reports Disconnected on every further call; otherwise the loop
runs and the Port keeps the updated accumulator and event stream, turning
disconnected on exactly when the loop observed a disconnection. -/
def read_line (p : Port) : LineOutcome × Port :=
  if p.disconnected then
    (⟨⟨0, SerialError.Disconnected⟩, [], p.accum, p.incoming⟩, p)
  else
    let o := read_line_aux p.incoming p.accum 0
    (o, { p with
            accum := o.accum
            incoming := o.remaining
            disconnected := decide (o.result.error = SerialError.Disconnected) })

/-- Outcome of a write operation. -/
structure WriteResult where
  error : SerialError
deriving DecidableEq, Repr

/-- Modelled from the spec: write_str writes all bytes of the string, failing
with Disconnected on a dead Port. -/
def write_str (p : Port) (s : List Char) : WriteResult × Port :=
  if p.disconnected then (⟨SerialError.Disconnected⟩, p) else (⟨SerialError.NoErr⟩, p)

/-- Modelled from the spec: arrival of written bytes at the connected peer,
as one underlying read chunk appended to its pending events. -/
def deliver (p : Port) (s : List Char) : Port :=
  { p with incoming := p.incoming ++ [ReadEvent.chunk s] }

/-- A successful write on the sender delivers the bytes to the connected
peer; a failed write delivers nothing. -/
def transmit (sender receiver : Port) (s : List Char) : Port × Port :=
  let w := write_str sender s
  if w.1.error = SerialError.NoErr then (w.2, deliver receiver s)
  else (w.2, receiver)

lemma splitAtDelim_eq_none {s : List Char} (h : '\n' ∉ s) :
    splitAtDelim s = none := by
  induction s with
  | nil => rfl
  | cons c rest ih =>
    have hc : ¬ c = '\n' := fun hc => h (hc ▸ List.mem_cons_self c rest)
    have hr : '\n' ∉ rest := fun hm => h (List.mem_cons_of_mem c hm)
    simp [splitAtDelim, hc, ih hr]

lemma splitAtDelim_append_delim (S : List Char) (h : '\n' ∉ S)
    (rest : List Char) :
    splitAtDelim (S ++ '\n' :: rest) = some (S ++ ['\n'], rest) := by
  induction S with
  | nil => simp [splitAtDelim]
  | cons c S ih =>
    have hc : ¬ c = '\n' := fun hc => h (hc ▸ List.mem_cons_self c S)
    have hS : '\n' ∉ S := fun hm => h (List.mem_cons_of_mem c hm)
    simp [splitAtDelim, hc, ih hS]

/-- Reading from a Port whose event stream is a single chunk holding one
complete delimiter-terminated line yields NoErr and exactly that line. -/
lemma read_line_single_chunk (p : Port) (S : List Char)
    (hS : '\n' ∉ S) (hp : p.disconnected = false)
    (ha : p.accum = []) (hi : p.incoming = []) :
    read_line (deliver p (S ++ ['\n']))
      = (⟨⟨S.length + 1, SerialError.NoErr⟩, S ++ ['\n'], [], []⟩,
         { p with accum := [], incoming := [], disconnected := false }) := by
  have hsplit : splitAtDelim (S ++ ['\n']) = some (S ++ ['\n'], []) :=
    splitAtDelim_append_delim S hS []
  simp [read_line, deliver, hp, ha, hi, read_line_aux, splitAtDelim, hsplit]

/-- C1: writing S plus the delimiter on one Port and calling read_line on the
connected peer returns NoErr, and the delivered line is S plus the delimiter,
delimiter included. -/
theorem C1_line_delivery (p q : Port) (S : List Char)
    (hS : '\n' ∉ S) (hp : p.disconnected = false) (hq : q.disconnected = false)
    (ha : q.accum = []) (hi : q.incoming = []) :
    ((read_line (transmit p q (S ++ ['\n'])).2).1.result.error
        = SerialError.NoErr) ∧
    (read_line (transmit p q (S ++ ['\n'])).2).1.line = S ++ ['\n'] := by
  have ht : (transmit p q (S ++ ['\n'])).2 = deliver q (S ++ ['\n']) := by
    simp [transmit, write_str, hp]
  rw [ht, read_line_single_chunk q S hS hq ha hi]
  exact ⟨rfl, rfl⟩

/-- Witness for C1 at a concrete pair of ports and the line "hi". -/
theorem C1_line_delivery_witness :
    ((read_line (transmit ⟨1, false, [], []⟩ ⟨1, false, [], []⟩
        (['h', 'i'] ++ ['\n'])).2).1.result.error = SerialError.NoErr) ∧
    (read_line (transmit ⟨1, false, [], []⟩ ⟨1, false, [], []⟩
        (['h', 'i'] ++ ['\n'])).2).1.line = ['h', 'i'] ++ ['\n'] :=
  C1_line_delivery ⟨1, false, [], []⟩ ⟨1, false, [], []⟩ ['h', 'i']
    (by decide) rfl rfl rfl rfl

lemma splitAtDelim_some {s l r : List Char} (h : splitAtDelim s = some (l, r)) :
    s = l ++ r ∧ ∃ pre, l = pre ++ ['\n'] ∧ '\n' ∉ pre := by
  induction s generalizing l r with
  | nil => simp [splitAtDelim] at h
  | cons c rest ih =>
    by_cases hc : c = '\n'
    · subst hc
      simp [splitAtDelim] at h
      obtain ⟨hl, hr⟩ := h
      subst hl; subst hr
      exact ⟨rfl, [], rfl, by simp⟩
    · rw [splitAtDelim] at h
      simp only [hc, if_false] at h
      cases hsr : splitAtDelim rest with
      | none => rw [hsr] at h; simp at h
      | some pr =>
        obtain ⟨line, r2⟩ := pr
        rw [hsr] at h
        simp only [Option.some.injEq, Prod.mk.injEq] at h
        obtain ⟨hl, hr⟩ := h
        obtain ⟨heq, pre, hpre, hnotin⟩ := ih hsr
        subst hl; subst hr
        refine ⟨by simp [heq], c :: pre, by simp [hpre], ?_⟩
        intro hm
        rcases List.mem_cons.mp hm with h1 | h2
        · exact hc h1.symm
        · exact hnotin h2

lemma splitAtDelim_append_of_some {a l r : List Char}
    (h : splitAtDelim a = some (l, r)) (b : List Char) :
    splitAtDelim (a ++ b) = some (l, r ++ b) := by
  induction a generalizing l r with
  | nil => simp [splitAtDelim] at h
  | cons c rest ih =>
    by_cases hc : c = '\n'
    · subst hc
      simp [splitAtDelim] at h ⊢
      obtain ⟨hl, hr⟩ := h
      subst hl; subst hr
      exact ⟨rfl, rfl⟩
    · rw [splitAtDelim] at h
      simp only [hc, if_false] at h
      cases hsr : splitAtDelim rest with
      | none => rw [hsr] at h; simp at h
      | some pr =>
        obtain ⟨line, r2⟩ := pr
        rw [hsr] at h
        simp only [Option.some.injEq, Prod.mk.injEq] at h
        obtain ⟨hl, hr⟩ := h
        subst hl; subst hr
        rw [List.cons_append, splitAtDelim]
        simp only [hc, if_false]
        rw [ih hsr]

/-- One read_line loop step: a complete line already in the accumulator is
extracted without touching the event stream. -/
lemma read_line_aux_extract (es : List ReadEvent) (accum line rest : List Char)
    (n : Nat) (h : splitAtDelim accum = some (line, rest)) :
    read_line_aux es accum n = ⟨⟨n, SerialError.NoErr⟩, line, rest, es⟩ := by
  cases es <;> simp [read_line_aux, h]

/-- One read_line loop step: with no complete line buffered, a chunk is
appended to the accumulator and counted into bytes_read. -/
lemma read_line_aux_chunk_step (d : List Char) (es : List ReadEvent)
    (accum : List Char) (n : Nat) (h : splitAtDelim accum = none) :
    read_line_aux (ReadEvent.chunk d :: es) accum n
      = read_line_aux es (accum ++ d) (n + d.length) := by
  simp [read_line_aux, h]

/-- One read_line loop step: with no complete line buffered, an expiry of the
timeout ends the call, keeping the accumulated partial content. -/
lemma read_line_aux_timeout_step (es : List ReadEvent) (accum : List Char)
    (n : Nat) (h : splitAtDelim accum = none) :
    read_line_aux (ReadEvent.timeout :: es) accum n
      = ⟨⟨n, SerialError.Timeout⟩, [], accum, es⟩ := by
  simp [read_line_aux, h]

/-- Consuming a run of chunks none of which completes a line folds their bytes
into the accumulator and their lengths into bytes_read. -/
lemma read_line_aux_chunks_no_delim (cs : List (List Char)) (es : List ReadEvent)
    (accum : List Char) (n : Nat) (h : '\n' ∉ accum ++ cs.flatten) :
    read_line_aux (cs.map ReadEvent.chunk ++ es) accum n
      = read_line_aux es (accum ++ cs.flatten) (n + cs.flatten.length) := by
  induction cs generalizing accum n with
  | nil => simp
  | cons c cs ih =>
    have haccum : '\n' ∉ accum := fun hm => h (by simp [hm])
    have hnone := splitAtDelim_eq_none haccum
    have h2 : '\n' ∉ (accum ++ c) ++ cs.flatten := by
      simpa [or_assoc] using h
    rw [List.map_cons, List.cons_append, read_line_aux_chunk_step c _ _ _ hnone,
      ih (accum ++ c) (n + c.length) h2]
    simp [Nat.add_assoc]

/-- When the stream of pending chunks does complete a line, read_line_aux
returns NoErr with exactly the first delimiter-terminated line of the
concatenated stream, and every byte after that line is preserved, split
between the new accumulator and the unconsumed chunks. -/
lemma read_line_aux_chunks_delim (cs : List (List Char)) (accum : List Char)
    (n : Nat) (line rest : List Char)
    (h : splitAtDelim (accum ++ cs.flatten) = some (line, rest)) :
    ∃ (k : Nat) (accum2 : List Char) (cs2 : List (List Char)),
      read_line_aux (cs.map ReadEvent.chunk) accum n
        = ⟨⟨n + k, SerialError.NoErr⟩, line, accum2, cs2.map ReadEvent.chunk⟩
      ∧ accum2 ++ cs2.flatten = rest := by
  induction cs generalizing accum n with
  | nil =>
    simp only [List.flatten_nil, List.append_nil] at h
    refine ⟨0, rest, [], ?_, by simp⟩
    rw [read_line_aux_extract _ _ _ _ _ h]
    simp
  | cons c cs ih =>
    cases hsa : splitAtDelim accum with
    | some pr =>
      obtain ⟨l, r⟩ := pr
      have hlong := splitAtDelim_append_of_some hsa ((c :: cs).flatten)
      rw [h] at hlong
      simp only [Option.some.injEq, Prod.mk.injEq] at hlong
      obtain ⟨hl, hr⟩ := hlong
      refine ⟨0, r, c :: cs, ?_, ?_⟩
      · rw [read_line_aux_extract _ _ _ _ _ hsa, hl]
        simp
      · rw [← hr]
    | none =>
      have h2 : splitAtDelim ((accum ++ c) ++ cs.flatten) = some (line, rest) := by
        rw [List.append_assoc]
        simpa using h
      obtain ⟨k, a2, cs2, heq, hrest⟩ := ih (accum ++ c) (n + c.length) h2
      refine ⟨c.length + k, a2, cs2, ?_, hrest⟩
      rw [List.map_cons, show (ReadEvent.chunk c :: List.map ReadEvent.chunk cs)
            = ReadEvent.chunk c :: (List.map ReadEvent.chunk cs ++ []) by simp,
        read_line_aux_chunk_step c _ _ _ hsa]
      simp only [List.append_nil]
      rw [heq, Nat.add_assoc]

/-- C2: a read_line call during which no delimiter arrives before the timeout
expires returns Timeout, reports exactly the bytes received during the call,
keeps the partial bytes buffered, and a later read_line continues the same
logical line. -/
theorem C2_timeout_preserves_partial (p : Port) (cs : List (List Char))
    (T : List Char) (hp : p.disconnected = false)
    (hnd : '\n' ∉ p.accum ++ cs.flatten)
    (hi : p.incoming = cs.map ReadEvent.chunk ++ [ReadEvent.timeout])
    (hT : '\n' ∉ p.accum ++ cs.flatten ++ T) :
    ((read_line p).1.result.error = SerialError.Timeout) ∧
    ((read_line p).1.result.bytes_read = cs.flatten.length) ∧
    ((read_line p).2.accum = p.accum ++ cs.flatten) ∧
    ((read_line (deliver (read_line p).2 (T ++ ['\n']))).1.result.error
        = SerialError.NoErr) ∧
    ((read_line (deliver (read_line p).2 (T ++ ['\n']))).1.line
        = p.accum ++ cs.flatten ++ T ++ ['\n']) := by
  have hnone : splitAtDelim (p.accum ++ cs.flatten) = none :=
    splitAtDelim_eq_none hnd
  have ho : read_line_aux p.incoming p.accum 0
      = ⟨⟨cs.flatten.length, SerialError.Timeout⟩, [], p.accum ++ cs.flatten, []⟩ := by
    rw [hi, read_line_aux_chunks_no_delim cs _ _ _ hnd,
      read_line_aux_timeout_step _ _ _ hnone]
    simp
  have hr1 : read_line p
      = (⟨⟨cs.flatten.length, SerialError.Timeout⟩, [], p.accum ++ cs.flatten, []⟩,
         { p with accum := p.accum ++ cs.flatten, incoming := [],
                  disconnected := false }) := by
    simp [read_line, hp, ho]
  have hsplit2 : splitAtDelim ((p.accum ++ cs.flatten ++ T) ++ '\n' :: [])
      = some ((p.accum ++ cs.flatten ++ T) ++ ['\n'], []) :=
    splitAtDelim_append_delim _ hT []
  have ho2 : read_line_aux [ReadEvent.chunk (T ++ ['\n'])]
        (p.accum ++ cs.flatten) 0
      = ⟨⟨(T ++ ['\n']).length, SerialError.NoErr⟩,
          (p.accum ++ cs.flatten ++ T) ++ ['\n'], [], []⟩ := by
    rw [read_line_aux_chunk_step _ _ _ _ hnone]
    have : (p.accum ++ cs.flatten) ++ (T ++ ['\n'])
        = (p.accum ++ cs.flatten ++ T) ++ '\n' :: [] := by simp
    rw [this, read_line_aux_extract _ _ _ _ _ hsplit2]
    simp
  rw [hr1]
  refine ⟨rfl, rfl, rfl, ?_, ?_⟩ <;>
    simp [read_line, deliver, ho2]

/-- Witness for C2: the partial bytes "pa" and "rt" time out, then "ial" plus
the delimiter completes the line "partial" on the next call. -/
theorem C2_timeout_preserves_partial_witness :
    (((read_line ⟨1, false, ['p', 'a'],
        [ReadEvent.chunk ['r', 't'], ReadEvent.timeout]⟩).1.result.error
      = SerialError.Timeout) ∧
    ((read_line ⟨1, false, ['p', 'a'],
        [ReadEvent.chunk ['r', 't'], ReadEvent.timeout]⟩).1.result.bytes_read = 2) ∧
    ((read_line ⟨1, false, ['p', 'a'],
        [ReadEvent.chunk ['r', 't'], ReadEvent.timeout]⟩).2.accum
      = ['p', 'a'] ++ ['r', 't']) ∧
    ((read_line (deliver (read_line ⟨1, false, ['p', 'a'],
        [ReadEvent.chunk ['r', 't'], ReadEvent.timeout]⟩).2
        (['i', 'a', 'l'] ++ ['\n']))).1.result.error = SerialError.NoErr) ∧
    ((read_line (deliver (read_line ⟨1, false, ['p', 'a'],
        [ReadEvent.chunk ['r', 't'], ReadEvent.timeout]⟩).2
        (['i', 'a', 'l'] ++ ['\n']))).1.line
      = ['p', 'a'] ++ ['r', 't'] ++ ['i', 'a', 'l'] ++ ['\n'])) :=
  C2_timeout_preserves_partial ⟨1, false, ['p', 'a'],
      [ReadEvent.chunk ['r', 't'], ReadEvent.timeout]⟩
    [['r', 't']] ['i', 'a', 'l'] rfl (by decide) rfl (by decide)

lemma streamBytes_chunks (cs : List (List Char)) :
    streamBytes (cs.map ReadEvent.chunk) = cs.flatten := by
  have hcomp : eventBytes ∘ ReadEvent.chunk = id := by
    funext d; rfl
  simp [streamBytes, List.map_map, hcomp]

/-- Reading a Port whose pending events are chunks whose concatenation
completes a line yields NoErr with the first line of the concatenation, and
every byte after that line survives for later calls. -/
lemma read_line_all_chunks (p : Port) (cs : List (List Char))
    (line rest : List Char)
    (hp : p.disconnected = false) (hpa : p.accum = [])
    (hpi : p.incoming = cs.map ReadEvent.chunk)
    (h : splitAtDelim cs.flatten = some (line, rest)) :
    ((read_line p).1.result.error = SerialError.NoErr) ∧
    ((read_line p).1.line = line) ∧
    ((read_line p).2.accum ++ streamBytes (read_line p).2.incoming = rest) := by
  have h0 : splitAtDelim ([] ++ cs.flatten) = some (line, rest) := by simpa using h
  obtain ⟨k, a2, cs2, heq, hrest⟩ := read_line_aux_chunks_delim cs [] 0 line rest h0
  have ho : read_line_aux p.incoming p.accum 0
      = ⟨⟨0 + k, SerialError.NoErr⟩, line, a2, cs2.map ReadEvent.chunk⟩ := by
    rw [hpi, hpa, heq]
  refine ⟨?_, ?_, ?_⟩ <;> simp [read_line, hp, ho, streamBytes_chunks, hrest]

/-- C3: the line read_line extracts is invariant under how the transport
splits the written bytes into underlying read chunks: two Ports receiving the
same bytes under different chunkings both return NoErr with the same line,
namely the first delimiter-terminated line of the concatenated bytes, and in
both cases the bytes after that line are preserved across the call, split
between the persistent accumulator and the unconsumed chunks. -/
theorem C3_chunking_invariance (p q : Port) (cs ds : List (List Char))
    (line rest : List Char)
    (hp : p.disconnected = false) (hq : q.disconnected = false)
    (hpa : p.accum = []) (hqa : q.accum = [])
    (hpi : p.incoming = cs.map ReadEvent.chunk)
    (hqi : q.incoming = ds.map ReadEvent.chunk)
    (hjoin : cs.flatten = ds.flatten)
    (h : splitAtDelim cs.flatten = some (line, rest)) :
    ((read_line p).1.result.error = SerialError.NoErr) ∧
    ((read_line q).1.result.error = SerialError.NoErr) ∧
    ((read_line p).1.line = line) ∧
    ((read_line q).1.line = line) ∧
    ((read_line p).2.accum ++ streamBytes (read_line p).2.incoming = rest) ∧
    ((read_line q).2.accum ++ streamBytes (read_line q).2.incoming = rest) := by
  obtain ⟨he1, hl1, hr1⟩ := read_line_all_chunks p cs line rest hp hpa hpi h
  obtain ⟨he2, hl2, hr2⟩ :=
    read_line_all_chunks q ds line rest hq hqa hqi (hjoin ▸ h)
  exact ⟨he1, he2, hl1, hl2, hr1, hr2⟩

/-- Witness for C3: the bytes "ab" + delimiter + "c" delivered once as the
chunking [a][b delim c] and once as [ab][delim c] give the same line. -/
theorem C3_chunking_invariance_witness :
    ((read_line ⟨1, false, [],
        [ReadEvent.chunk ['a'], ReadEvent.chunk ['b', '\n', 'c']]⟩).1.result.error
      = SerialError.NoErr) ∧
    ((read_line ⟨1, false, [],
        [ReadEvent.chunk ['a', 'b'], ReadEvent.chunk ['\n', 'c']]⟩).1.result.error
      = SerialError.NoErr) ∧
    ((read_line ⟨1, false, [],
        [ReadEvent.chunk ['a'], ReadEvent.chunk ['b', '\n', 'c']]⟩).1.line
      = ['a', 'b', '\n']) ∧
    ((read_line ⟨1, false, [],
        [ReadEvent.chunk ['a', 'b'], ReadEvent.chunk ['\n', 'c']]⟩).1.line
      = ['a', 'b', '\n']) ∧
    ((read_line ⟨1, false, [],
        [ReadEvent.chunk ['a'], ReadEvent.chunk ['b', '\n', 'c']]⟩).2.accum
      ++ streamBytes (read_line ⟨1, false, [],
        [ReadEvent.chunk ['a'], ReadEvent.chunk ['b', '\n', 'c']]⟩).2.incoming
      = ['c']) ∧
    ((read_line ⟨1, false, [],
        [ReadEvent.chunk ['a', 'b'], ReadEvent.chunk ['\n', 'c']]⟩).2.accum
      ++ streamBytes (read_line ⟨1, false, [],
        [ReadEvent.chunk ['a', 'b'], ReadEvent.chunk ['\n', 'c']]⟩).2.incoming
      = ['c']) :=
  C3_chunking_invariance
    ⟨1, false, [], [ReadEvent.chunk ['a'], ReadEvent.chunk ['b', '\n', 'c']]⟩
    ⟨1, false, [], [ReadEvent.chunk ['a', 'b'], ReadEvent.chunk ['\n', 'c']]⟩
    [['a'], ['b', '\n', 'c']] [['a', 'b'], ['\n', 'c']]
    ['a', 'b', '\n'] ['c']
    rfl rfl rfl rfl rfl rfl (by decide) (by decide)

lemma splitAtDelim_rest_lt {s l r : List Char}
    (h : splitAtDelim s = some (l, r)) : r.length < s.length := by
  obtain ⟨heq, pre, hpre, -⟩ := splitAtDelim_some h
  have hl : 0 < l.length := by rw [hpre]; simp
  rw [heq, List.length_append]
  omega

/-- The delimiter-terminated lines of a byte sequence, in order; a trailing
undelimited fragment yields no line. -/
def linesOf (s : List Char) : List (List Char) :=
  match h : splitAtDelim s with
  | some (line, rest) => line :: linesOf rest
  | none => []
termination_by s.length
decreasing_by exact splitAtDelim_rest_lt h

lemma linesOf_of_none {s : List Char} (h : splitAtDelim s = none) :
    linesOf s = [] := by
  rw [linesOf, h]

lemma linesOf_of_some {s line rest : List Char}
    (h : splitAtDelim s = some (line, rest)) :
    linesOf s = line :: linesOf rest := by
  rw [linesOf, h]

/-- Modelled from the spec: the Listener state machine Built, Listening,
Stopped. -/
inductive ListenerState
  | Built
  | Listening
  | Stopped
deriving DecidableEq, Repr

/-- Modelled from the spec: one registered callback: an opaque userdata
pointer owned by the registrant (none models a null pointer) and a function
reference, modelled by an identifier of the foreign function. -/
structure CallbackEntry where
  userdata : Option Nat
  callback : Nat
deriving DecidableEq, Repr

/-- The NUL byte terminating the buffer handed across the FFI boundary. -/
def NUL : Char := Char.ofNat 0

/-- One observed callback invocation: which function was called, the userdata
passed back, the bytes visible through the data pointer (line plus NUL
terminator), and the explicit length argument. -/
structure Invocation where
  callback : Nat
  userdata : Option Nat
  buffer : List Char
  length : Nat
deriving DecidableEq, Repr

/-- Modelled from the spec: dispatch of one completed line to every
registered callback in registration order: the data pointer exposes the line
bytes followed by a NUL terminator, the length argument is the line length,
and each entry receives its own userdata unmodified. -/
def dispatchLine (registry : List CallbackEntry) (line : List Char) :
    List Invocation :=
  registry.map (fun e => ⟨e.callback, e.userdata, line ++ [NUL], line.length⟩)

/-- Modelled from the spec: a ListenerBuilder accumulates callback
registrations against the Port it was derived from. -/
structure ListenerBuilder where
  port : Port
  registry : List CallbackEntry
deriving DecidableEq, Repr

/-- Modelled from the spec: create_listener_builder on a Port derives a
builder holding that Port and an empty registry; the Port value itself is
not consumed. -/
def create_listener_builder (p : Port) : ListenerBuilder := ⟨p, []⟩

/-- Modelled from the spec: add_read_callback appends a CallbackEntry; the
order of addition is the order of later invocation; a null userdata is
accepted. -/
def add_read_callback (b : ListenerBuilder) (userdata : Option Nat)
    (cb : Nat) : ListenerBuilder :=
  { b with registry := b.registry ++ [⟨userdata, cb⟩] }

/-- Modelled from the spec: a Listener owns its Port and the immutable
CallbackRegistry snapshot, its lifecycle state, the cooperative stop flag,
whether it still owns the Port, and how many background loops were ever
started. -/
structure Listener where
  port : Port
  registry : List CallbackEntry
  state : ListenerState
  stopRequested : Bool
  portOwned : Bool
  loopsStarted : Nat
deriving DecidableEq, Repr

/-- Modelled from the spec: build consumes the builder and produces a
Listener in the Built state holding the Port and the finalized registry. -/
def build (b : ListenerBuilder) : Listener :=
  ⟨b.port, b.registry, ListenerState.Built, false, true, 0⟩

/-- Modelled from the spec: listen starts the background loop, moving Built
to Listening; a second invocation is a rejected no-op that starts no second
loop. -/
def listen (l : Listener) : Listener × Bool :=
  match l.state with
  | ListenerState.Built =>
      ({ l with state := ListenerState.Listening,
                loopsStarted := l.loopsStarted + 1 }, true)
  | _ => (l, false)

/-- Modelled from the spec: the stop request raises the cooperative stop
flag observed by the loop at its next iteration boundary. -/
def requestStop (l : Listener) : Listener :=
  { l with stopRequested := true }

/-- Modelled from the spec: the Listener background loop, bounded by a fuel
count of iterations.  Each iteration first honours a pending stop request,
releasing the Port; otherwise it performs one read_line on the owned Port:
NoErr dispatches the line to every callback in registration order, Timeout
loops again without dispatch, Disconnected and IOError end the loop in the
Stopped state with no further callback invocations. -/
def listenerRun : Nat → Listener → List Invocation × Listener
  | 0, l => ([], l)
  | Nat.succ f, l =>
    if l.state = ListenerState.Listening then
      if l.stopRequested then
        ([], { l with state := ListenerState.Stopped, portOwned := false })
      else
        let o := read_line l.port
        match o.1.result.error with
        | SerialError.NoErr =>
            let r := listenerRun f { l with port := o.2 }
            (dispatchLine l.registry o.1.line ++ r.1, r.2)
        | SerialError.Timeout => listenerRun f { l with port := o.2 }
        | SerialError.Disconnected =>
            ([], { l with port := o.2, state := ListenerState.Stopped })
        | SerialError.IOError =>
            ([], { l with port := o.2, state := ListenerState.Stopped })
    else ([], l)

/-- Modelled from the spec: stop signals the loop and joins the background
context before returning, so the value it returns reflects the loop having
observed the flag at its next boundary and released the Port. -/
def stop (l : Listener) : Listener :=
  (listenerRun 1 (requestStop l)).2

lemma splitAtDelim_none_not_mem {s : List Char}
    (h : splitAtDelim s = none) : '\n' ∉ s := by
  induction s with
  | nil => simp
  | cons c rest ih =>
    rw [splitAtDelim] at h
    by_cases hc : c = '\n'
    · simp [hc] at h
    · simp only [hc, if_false] at h
      cases hsr : splitAtDelim rest with
      | some pr =>
        obtain ⟨a, b⟩ := pr
        rw [hsr] at h
        simp at h
      | none =>
        intro hm
        rcases List.mem_cons.mp hm with h1 | h2
        · exact hc h1.symm
        · exact ih hsr h2

lemma read_line_aux_nil_none (accum : List Char) (n : Nat)
    (h : splitAtDelim accum = none) :
    read_line_aux [] accum n = ⟨⟨n, SerialError.Timeout⟩, [], accum, []⟩ := by
  simp [read_line_aux, h]

lemma linesOf_ends_delim_aux (n : Nat) : ∀ (s : List Char), s.length ≤ n →
    ∀ line ∈ linesOf s, ∃ pre, line = pre ++ ['\n'] := by
  induction n with
  | zero =>
    intro s hs
    have hnil : s = [] := List.length_eq_zero.mp (Nat.le_zero.mp hs)
    subst hnil
    rw [linesOf_of_none (by decide)]
    simp
  | succ n ih =>
    intro s hs
    cases hsplit : splitAtDelim s with
    | none =>
      rw [linesOf_of_none hsplit]
      simp
    | some pr =>
      obtain ⟨l, r⟩ := pr
      rw [linesOf_of_some hsplit]
      intro line hm
      rcases List.mem_cons.mp hm with h1 | h2
      · obtain ⟨-, pre, hpre, -⟩ := splitAtDelim_some hsplit
        exact ⟨pre, h1 ▸ hpre⟩
      · have hlt := splitAtDelim_rest_lt hsplit
        exact ih r (by omega) line h2

/-- Every line extracted from a stream is delimiter-terminated: dispatch
happens only once the full line through the delimiter has arrived. -/
lemma linesOf_ends_delim (s : List Char) :
    ∀ line ∈ linesOf s, ∃ pre, line = pre ++ ['\n'] :=
  linesOf_ends_delim_aux s.length s le_rfl

/-- One loop iteration of a Listener that is not in the Listening state does
nothing. -/
lemma listenerRun_not_listening (f : Nat) (l : Listener)
    (h : ¬ l.state = ListenerState.Listening) :
    listenerRun f l = ([], l) := by
  cases f with
  | zero => rfl
  | succ f => simp [listenerRun, h]

/-- A pending stop request is honoured at the next iteration boundary: no
callback fires, the state becomes Stopped and the Port is released. -/
lemma listenerRun_stop_flag (f : Nat) (l : Listener)
    (hstate : l.state = ListenerState.Listening)
    (hreq : l.stopRequested = true) :
    listenerRun (f + 1) l
      = ([], { l with state := ListenerState.Stopped, portOwned := false }) := by
  simp [listenerRun, hstate, hreq]

/-- A loop iteration whose read completes a line dispatches it to every
callback in registration order before the loop continues. -/
lemma listenerRun_step_noerr (f : Nat) (l : Listener) (o : LineOutcome)
    (p2 : Port) (hstate : l.state = ListenerState.Listening)
    (hreq : l.stopRequested = false) (hrl : read_line l.port = (o, p2))
    (herr : o.result.error = SerialError.NoErr) :
    listenerRun (f + 1) l
      = (dispatchLine l.registry o.line ++ (listenerRun f { l with port := p2 }).1,
         (listenerRun f { l with port := p2 }).2) := by
  simp [listenerRun, hstate, hreq, hrl, herr]

/-- A loop iteration whose read times out dispatches nothing and loops
again. -/
lemma listenerRun_step_timeout (f : Nat) (l : Listener) (o : LineOutcome)
    (p2 : Port) (hstate : l.state = ListenerState.Listening)
    (hreq : l.stopRequested = false) (hrl : read_line l.port = (o, p2))
    (herr : o.result.error = SerialError.Timeout) :
    listenerRun (f + 1) l = listenerRun f { l with port := p2 } := by
  simp [listenerRun, hstate, hreq, hrl, herr]

/-- A loop iteration whose read reports Disconnected ends the loop in the
Stopped state with no callback invocation. -/
lemma listenerRun_step_disconnected (f : Nat) (l : Listener) (o : LineOutcome)
    (p2 : Port) (hstate : l.state = ListenerState.Listening)
    (hreq : l.stopRequested = false) (hrl : read_line l.port = (o, p2))
    (herr : o.result.error = SerialError.Disconnected) :
    listenerRun (f + 1) l
      = ([], { l with port := p2, state := ListenerState.Stopped }) := by
  simp [listenerRun, hstate, hreq, hrl, herr]

/-- A loop iteration whose read reports IOError ends the loop in the Stopped
state with no callback invocation. -/
lemma listenerRun_step_ioerror (f : Nat) (l : Listener) (o : LineOutcome)
    (p2 : Port) (hstate : l.state = ListenerState.Listening)
    (hreq : l.stopRequested = false) (hrl : read_line l.port = (o, p2))
    (herr : o.result.error = SerialError.IOError) :
    listenerRun (f + 1) l
      = ([], { l with port := p2, state := ListenerState.Stopped }) := by
  simp [listenerRun, hstate, hreq, hrl, herr]

/-- The trace of a Listener loop over a stream of chunk arrivals: given fuel
for one iteration per complete line plus a final timed-out iteration, the
invocations are exactly the dispatch, line by line in arrival order, of the
delimiter-terminated lines of the concatenated stream, each line handed to
every registered callback in registration order. -/
lemma listenerRun_trace (k : Nat) :
    ∀ (l : Listener) (cs : List (List Char)),
      l.state = ListenerState.Listening → l.stopRequested = false →
      l.port.disconnected = false →
      l.port.incoming = cs.map ReadEvent.chunk →
      (linesOf (l.port.accum ++ cs.flatten)).length = k →
      (listenerRun (k + 1) l).1
        = (linesOf (l.port.accum ++ cs.flatten)).flatMap (dispatchLine l.registry) := by
  induction k with
  | zero =>
    intro l cs hstate hreq hdisc hinc hlen
    have hnone : splitAtDelim (l.port.accum ++ cs.flatten) = none := by
      cases hs : splitAtDelim (l.port.accum ++ cs.flatten) with
      | none => rfl
      | some pr =>
        obtain ⟨a, b⟩ := pr
        rw [linesOf_of_some hs] at hlen
        simp at hlen
    have hnd : '
' ∉ l.port.accum ++ cs.flatten := splitAtDelim_none_not_mem hnone
    have ho : read_line_aux l.port.incoming l.port.accum 0
        = ⟨⟨0 + cs.flatten.length, SerialError.Timeout⟩, [],
            l.port.accum ++ cs.flatten, []⟩ := by
      rw [hinc, show cs.map ReadEvent.chunk = cs.map ReadEvent.chunk ++ [] by simp,
        read_line_aux_chunks_no_delim cs [] l.port.accum 0 hnd,
        read_line_aux_nil_none _ _ hnone]
    have hrl : read_line l.port
        = (⟨⟨0 + cs.flatten.length, SerialError.Timeout⟩, [],
              l.port.accum ++ cs.flatten, []⟩,
           ⟨l.port.timeout, false, l.port.accum ++ cs.flatten, []⟩) := by
      rw [read_line, if_neg (by simp [hdisc]), ho]
      rfl
    rw [listenerRun_step_timeout 0 l _ _ hstate hreq hrl rfl]
    rw [linesOf_of_none hnone]
    rfl
  | succ k ih =>
    intro l cs hstate hreq hdisc hinc hlen
    cases hs : splitAtDelim (l.port.accum ++ cs.flatten) with
    | none =>
      rw [linesOf_of_none hs] at hlen
      simp at hlen
    | some pr =>
      obtain ⟨line, rest⟩ := pr
      obtain ⟨k2, a2, cs2, heq, hrest⟩ :=
        read_line_aux_chunks_delim cs l.port.accum 0 line rest hs
      have hrl : read_line l.port
          = (⟨⟨0 + k2, SerialError.NoErr⟩, line, a2, cs2.map ReadEvent.chunk⟩,
             ⟨l.port.timeout, false, a2, cs2.map ReadEvent.chunk⟩) := by
        rw [read_line, if_neg (by simp [hdisc]), hinc, heq]
        rfl
      have hlen2 : (linesOf rest).length = k := by
        rw [linesOf_of_some hs] at hlen
        simpa using hlen
      have ih' := ih
        { l with port := ⟨l.port.timeout, false, a2, cs2.map ReadEvent.chunk⟩ }
        cs2 hstate hreq rfl rfl (by simpa [hrest] using hlen2)
      rw [listenerRun_step_noerr (k + 1) l _ _ hstate hreq hrl rfl]
      simp only [ih']
      rw [linesOf_of_some hs, List.flatMap_cons]
      simp [hrest]

/-- C5: a started Listener dispatches every delimiter-terminated line of the
received stream to the registered callbacks: the invocation trace is exactly
the lines in wire order, each line handed to every registry entry in
registration order, and every dispatched line carries its delimiter, so
dispatch happens only after the full line has arrived. -/
theorem C5_dispatch_order (registry : List CallbackEntry) (p : Port)
    (cs : List (List Char))
    (hp : p.disconnected = false) (hpa : p.accum = [])
    (hpi : p.incoming = cs.map ReadEvent.chunk) :
    ((listenerRun ((linesOf cs.flatten).length + 1)
        (listen (build ⟨p, registry⟩)).1).1
      = (linesOf cs.flatten).flatMap (dispatchLine registry)) ∧
    (∀ line ∈ linesOf cs.flatten, ∃ pre, line = pre ++ ['\n']) := by
  constructor
  · have h0 : p.accum ++ cs.flatten = cs.flatten := by rw [hpa]; simp
    have ht := listenerRun_trace (linesOf cs.flatten).length
      ⟨p, registry, ListenerState.Listening, false, true, 1⟩ cs rfl rfl hp hpi
      (by simp [h0])
    simpa [listen, build, h0] using ht
  · exact linesOf_ends_delim cs.flatten

/-- Witness for C5: two lines arriving in one chunk are dispatched, in
order, to the two registered callbacks in registration order. -/
theorem C5_dispatch_order_witness :
    ((listenerRun ((linesOf (List.flatten
          [['h', 'i', '\n', 'y', 'o', '\n']])).length + 1)
        (listen (build ⟨⟨1, false, [],
          [ReadEvent.chunk ['h', 'i', '\n', 'y', 'o', '\n']]⟩,
          [⟨some 5, 1⟩, ⟨none, 2⟩]⟩)).1).1
      = (linesOf (List.flatten [['h', 'i', '\n', 'y', 'o', '\n']])).flatMap
          (dispatchLine [⟨some 5, 1⟩, ⟨none, 2⟩])) ∧
    (∀ line ∈ linesOf (List.flatten [['h', 'i', '\n', 'y', 'o', '\n']]),
      ∃ pre, line = pre ++ ['\n']) :=
  C5_dispatch_order [⟨some 5, 1⟩, ⟨none, 2⟩]
    ⟨1, false, [], [ReadEvent.chunk ['h', 'i', '\n', 'y', 'o', '\n']]⟩
    [['h', 'i', '\n', 'y', 'o', '\n']] rfl rfl rfl

/-- A Port that has observed Disconnected is permanently poisoned: the flag
is set after any read_line call that reports Disconnected. -/
lemma read_line_disc_poisons (p : Port)
    (h : (read_line p).1.result.error = SerialError.Disconnected) :
    (read_line p).2.disconnected = true := by
  cases hd : p.disconnected with
  | true => simp [read_line, hd]
  | false =>
    have h2 : (read_line_aux p.incoming p.accum 0).result.error
        = SerialError.Disconnected := by
      simpa [read_line, hd] using h
    simp [read_line, hd, h2]

/-- Every operation on a Port whose disconnected flag is set reports
Disconnected and leaves the Port unchanged. -/
lemma read_line_on_disconnected (p : Port) (h : p.disconnected = true) :
    read_line p = (⟨⟨0, SerialError.Disconnected⟩, [], p.accum, p.incoming⟩, p) := by
  simp [read_line, h]

lemma write_str_on_disconnected (p : Port) (s : List Char)
    (h : p.disconnected = true) :
    write_str p s = (⟨SerialError.Disconnected⟩, p) := by
  simp [write_str, h]

/-- A read_line call that reports Timeout or IOError does not set the
disconnected flag: the Port stays usable. -/
lemma read_line_nonfatal_keeps (p : Port) (hd : p.disconnected = false)
    (h : (read_line p).1.result.error = SerialError.Timeout ∨
         (read_line p).1.result.error = SerialError.IOError) :
    (read_line p).2.disconnected = false := by
  rcases h with h | h <;>
  · have h2 := h
    simp only [read_line, hd, Bool.false_eq_true, if_false] at h2 ⊢
    simp [h2]

/-- C4: once an operation on a Port reports Disconnected every subsequent
operation on it reports Disconnected as well; a Listener whose loop observes
Disconnected transitions to Stopped and never invokes a callback again; a
single Timeout or IOError, by contrast, leaves the Port valid. -/
theorem C4_disconnected_fatal (p q : Port) (s : List Char) (l : Listener)
    (o : LineOutcome) (p2 : Port) (f g : Nat)
    (hp : (read_line p).1.result.error = SerialError.Disconnected)
    (hq : q.disconnected = false)
    (hqe : (read_line q).1.result.error = SerialError.Timeout ∨
           (read_line q).1.result.error = SerialError.IOError)
    (hls : l.state = ListenerState.Listening) (hlr : l.stopRequested = false)
    (hrl : read_line l.port = (o, p2))
    (herr : o.result.error = SerialError.Disconnected) :
    ((read_line (read_line p).2).1.result.error = SerialError.Disconnected) ∧
    ((write_str (read_line p).2 s).1.error = SerialError.Disconnected) ∧
    ((read_line (read_line p).2).2 = (read_line p).2) ∧
    ((read_line (read_line (read_line p).2).2).1.result.error
        = SerialError.Disconnected) ∧
    (listenerRun (f + 1) l
        = ([], { l with port := p2, state := ListenerState.Stopped })) ∧
    (listenerRun g { l with port := p2, state := ListenerState.Stopped }
        = ([], { l with port := p2, state := ListenerState.Stopped })) ∧
    ((read_line q).2.disconnected = false) := by
  have hpo : (read_line p).2.disconnected = true := read_line_disc_poisons p hp
  have h1 := read_line_on_disconnected _ hpo
  refine ⟨by rw [h1], by rw [write_str_on_disconnected _ s hpo], by rw [h1],
    ?_, ?_, ?_, ?_⟩
  · rw [h1]
    rw [h1]
  · exact listenerRun_step_disconnected f l o p2 hls hlr hrl herr
  · exact listenerRun_not_listening g _ (by simp)
  · exact read_line_nonfatal_keeps q hq hqe

/-- Witness for C4 on concrete ports: a disconnection event poisons the
port, the listener stops, a pure timeout does not poison. -/
theorem C4_disconnected_fatal_witness :
    ((read_line (read_line ⟨1, false, [], [ReadEvent.disconnected]⟩).2).1.result.error
        = SerialError.Disconnected) ∧
    ((write_str (read_line ⟨1, false, [], [ReadEvent.disconnected]⟩).2 ['x']).1.error
        = SerialError.Disconnected) ∧
    ((read_line (read_line ⟨1, false, [], [ReadEvent.disconnected]⟩).2).2
        = (read_line ⟨1, false, [], [ReadEvent.disconnected]⟩).2) ∧
    ((read_line (read_line (read_line
        ⟨1, false, [], [ReadEvent.disconnected]⟩).2).2).1.result.error
        = SerialError.Disconnected) ∧
    (listenerRun (2 + 1)
        ⟨⟨1, false, [], [ReadEvent.disconnected]⟩, [⟨none, 3⟩],
          ListenerState.Listening, false, true, 1⟩
        = ([], { (⟨⟨1, false, [], [ReadEvent.disconnected]⟩, [⟨none, 3⟩],
            ListenerState.Listening, false, true, 1⟩ : Listener) with
              port := ⟨1, true, [], []⟩, state := ListenerState.Stopped })) ∧
    (listenerRun 4 { (⟨⟨1, false, [], [ReadEvent.disconnected]⟩, [⟨none, 3⟩],
          ListenerState.Listening, false, true, 1⟩ : Listener) with
            port := ⟨1, true, [], []⟩, state := ListenerState.Stopped }
        = ([], { (⟨⟨1, false, [], [ReadEvent.disconnected]⟩, [⟨none, 3⟩],
            ListenerState.Listening, false, true, 1⟩ : Listener) with
              port := ⟨1, true, [], []⟩, state := ListenerState.Stopped })) ∧
    ((read_line ⟨1, false, [], [ReadEvent.timeout]⟩).2.disconnected = false) :=
  C4_disconnected_fatal ⟨1, false, [], [ReadEvent.disconnected]⟩
    ⟨1, false, [], [ReadEvent.timeout]⟩ ['x']
    ⟨⟨1, false, [], [ReadEvent.disconnected]⟩, [⟨none, 3⟩],
      ListenerState.Listening, false, true, 1⟩
    ⟨⟨0, SerialError.Disconnected⟩, [], [], []⟩ ⟨1, true, [], []⟩ 2 4
    (by decide) rfl (Or.inl (by decide)) rfl rfl (by decide) rfl

/-- Modelled from the spec: wall-clock duration of one read_line call under
the configured timeout t: chunk arrivals deliver data without exhausting the
window, and the call ends no later than the first expiry of the timeout, a
disconnection or an OS failure ends it at once. -/
def read_line_time (t : ℚ) : List ReadEvent → List Char → ℚ
  | [], accum =>
    match splitAtDelim accum with
    | some _ => 0
    | none => t
  | e :: es, accum =>
    match splitAtDelim accum with
    | some _ => 0
    | none =>
      match e with
      | ReadEvent.chunk d => read_line_time t es (accum ++ d)
      | ReadEvent.timeout => t
      | ReadEvent.disconnected => 0
      | ReadEvent.ioError => 0

/-- Every single blocking read_line call lasts at most the configured
timeout. -/
lemma read_line_time_le (t : ℚ) (ht : 0 ≤ t) :
    ∀ (es : List ReadEvent) (accum : List Char),
      read_line_time t es accum ≤ t := by
  intro es
  induction es with
  | nil =>
    intro accum
    cases hsp : splitAtDelim accum
    · simp [read_line_time, hsp]
    · simp [read_line_time, hsp, ht]
  | cons e es ih =>
    intro accum
    cases hsp : splitAtDelim accum
    · cases e with
      | chunk d =>
        simp only [read_line_time, hsp]
        exact ih (accum ++ d)
      | timeout => simp [read_line_time, hsp]
      | disconnected => simp [read_line_time, hsp, ht]
      | ioError => simp [read_line_time, hsp, ht]
    · simp [read_line_time, hsp, ht]

/-- C6: after stop returns no callback of the Listener is ever invoked
again: the stop request is observed at the next iteration boundary, the
background loop is joined before stop returns with the Port released, no
invocation happens from the moment the request is raised, and the
cooperative cancellation latency is bounded by one in-flight read, itself
bounded by the configured timeout. -/
theorem C6_stop_semantics (l : Listener) (f g : Nat)
    (hstate : l.state = ListenerState.Listening) (ht : 0 ≤ l.port.timeout) :
    ((listenerRun g (stop l)).1 = []) ∧
    ((stop l).state = ListenerState.Stopped) ∧
    ((stop l).portOwned = false) ∧
    ((listenerRun (f + 1) (requestStop l)).1 = []) ∧
    ((listenerRun (f + 1) (requestStop l)).2.state = ListenerState.Stopped) ∧
    (∀ (es : List ReadEvent) (accum : List Char),
      read_line_time l.port.timeout es accum ≤ l.port.timeout) := by
  have hrs : listenerRun 1 (requestStop l)
      = ([], { requestStop l with state := ListenerState.Stopped, portOwned := false }) :=
    listenerRun_stop_flag 0 (requestStop l) hstate rfl
  have hstop : stop l
      = { requestStop l with state := ListenerState.Stopped, portOwned := false } := by
    rw [stop, hrs]
  have hflag : listenerRun (f + 1) (requestStop l)
      = ([], { requestStop l with state := ListenerState.Stopped, portOwned := false }) :=
    listenerRun_stop_flag f (requestStop l) hstate rfl
  refine ⟨?_, by rw [hstop], by rw [hstop], by rw [hflag], by rw [hflag],
    read_line_time_le l.port.timeout ht⟩
  rw [hstop, listenerRun_not_listening g _ (by simp)]

/-- Witness for C6 at a concrete listening Listener. -/
theorem C6_stop_semantics_witness :
    ((listenerRun 5 (stop ⟨⟨1, false, [], [ReadEvent.chunk ['a', '\n']]⟩,
        [⟨none, 3⟩], ListenerState.Listening, false, true, 1⟩)).1 = []) ∧
    ((stop ⟨⟨1, false, [], [ReadEvent.chunk ['a', '\n']]⟩,
        [⟨none, 3⟩], ListenerState.Listening, false, true, 1⟩).state
      = ListenerState.Stopped) ∧
    ((stop ⟨⟨1, false, [], [ReadEvent.chunk ['a', '\n']]⟩,
        [⟨none, 3⟩], ListenerState.Listening, false, true, 1⟩).portOwned
      = false) ∧
    ((listenerRun (2 + 1) (requestStop ⟨⟨1, false, [],
        [ReadEvent.chunk ['a', '\n']]⟩,
        [⟨none, 3⟩], ListenerState.Listening, false, true, 1⟩)).1 = []) ∧
    ((listenerRun (2 + 1) (requestStop ⟨⟨1, false, [],
        [ReadEvent.chunk ['a', '\n']]⟩,
        [⟨none, 3⟩], ListenerState.Listening, false, true, 1⟩)).2.state
      = ListenerState.Stopped) ∧
    (∀ (es : List ReadEvent) (accum : List Char),
      read_line_time (Listener.port ⟨⟨1, false, [], [ReadEvent.chunk ['a', '\n']]⟩,
        [⟨none, 3⟩], ListenerState.Listening, false, true, 1⟩).timeout es accum
        ≤ (Listener.port ⟨⟨1, false, [], [ReadEvent.chunk ['a', '\n']]⟩,
        [⟨none, 3⟩], ListenerState.Listening, false, true, 1⟩).timeout) :=
  C6_stop_semantics ⟨⟨1, false, [], [ReadEvent.chunk ['a', '\n']]⟩,
      [⟨none, 3⟩], ListenerState.Listening, false, true, 1⟩ 2 5 rfl (by norm_num)

/-- The Listener state only ever moves along Built to Listening to Stopped:
a run of the loop either leaves the state unchanged or moves a Listening
Listener to Stopped. -/
lemma listenerRun_state_cases (f : Nat) : ∀ l : Listener,
    (listenerRun f l).2.state = l.state ∨
    (l.state = ListenerState.Listening ∧
      (listenerRun f l).2.state = ListenerState.Stopped) := by
  induction f with
  | zero => intro l; exact Or.inl rfl
  | succ f ih =>
    intro l
    by_cases hs : l.state = ListenerState.Listening
    · cases hr : l.stopRequested with
      | true =>
        rw [listenerRun_stop_flag f l hs hr]
        exact Or.inr ⟨hs, rfl⟩
      | false =>
        rcases hrl : read_line l.port with ⟨o, p2⟩
        cases herr : o.result.error with
        | NoErr =>
          rw [listenerRun_step_noerr f l o p2 hs hr hrl herr]
          rcases ih { l with port := p2 } with h1 | h2
          · exact Or.inl h1
          · exact Or.inr ⟨hs, h2.2⟩
        | Timeout =>
          rw [listenerRun_step_timeout f l o p2 hs hr hrl herr]
          rcases ih { l with port := p2 } with h1 | h2
          · exact Or.inl h1
          · exact Or.inr ⟨hs, h2.2⟩
        | Disconnected =>
          rw [listenerRun_step_disconnected f l o p2 hs hr hrl herr]
          exact Or.inr ⟨hs, rfl⟩
        | IOError =>
          rw [listenerRun_step_ioerror f l o p2 hs hr hrl herr]
          exact Or.inr ⟨hs, rfl⟩
    · rw [listenerRun_not_listening (f + 1) l hs]
      exact Or.inl rfl

/-- C7: a second listen on a Listening Listener is a rejected no-op that
starts no second loop; the lifecycle follows only the transitions Built to
Listening (by listen) and Listening to Stopped (by the loop), and Stopped is
terminal: listen, the loop and stop all leave a Stopped Listener stopped. -/
theorem C7_lifecycle (l m : Listener) (f : Nat)
    (hl : l.state = ListenerState.Listening)
    (hm : m.state = ListenerState.Stopped) :
    (listen l = (l, false)) ∧
    ((listen l).1.loopsStarted = l.loopsStarted) ∧
    (∀ j : Listener, (listen j).1.state = j.state ∨
        (j.state = ListenerState.Built ∧
          (listen j).1.state = ListenerState.Listening)) ∧
    (∀ (j : Listener) (g : Nat), (listenerRun g j).2.state = j.state ∨
        (j.state = ListenerState.Listening ∧
          (listenerRun g j).2.state = ListenerState.Stopped)) ∧
    (listen m = (m, false)) ∧
    (listenerRun f m = ([], m)) ∧
    ((stop m).state = ListenerState.Stopped) := by
  have h1 : listen l = (l, false) := by
    rw [listen, hl]
  have h5 : listen m = (m, false) := by
    rw [listen, hm]
  have h6 : listenerRun f m = ([], m) :=
    listenerRun_not_listening f m (by rw [hm]; simp)
  have h7 : (stop m).state = ListenerState.Stopped := by
    rw [stop, listenerRun_not_listening 1 (requestStop m)
      (by simp [requestStop, hm])]
    exact hm
  refine ⟨h1, by rw [h1], ?_, ?_, h5, h6, h7⟩
  · intro j
    cases hj : j.state with
    | Built => exact Or.inr ⟨rfl, by rw [listen, hj]⟩
    | Listening =>
      left
      rw [listen, hj]
      exact hj
    | Stopped =>
      left
      rw [listen, hj]
      exact hj
  · intro j g
    exact listenerRun_state_cases g j

/-- Witness for C7 at concrete Listening and Stopped Listeners. -/
theorem C7_lifecycle_witness :
    (listen ⟨⟨1, false, [], []⟩, [], ListenerState.Listening, false, true, 1⟩
      = (⟨⟨1, false, [], []⟩, [], ListenerState.Listening, false, true, 1⟩,
         false)) ∧
    ((listen ⟨⟨1, false, [], []⟩, [],
        ListenerState.Listening, false, true, 1⟩).1.loopsStarted = 1) ∧
    (∀ j : Listener, (listen j).1.state = j.state ∨
        (j.state = ListenerState.Built ∧
          (listen j).1.state = ListenerState.Listening)) ∧
    (∀ (j : Listener) (g : Nat), (listenerRun g j).2.state = j.state ∨
        (j.state = ListenerState.Listening ∧
          (listenerRun g j).2.state = ListenerState.Stopped)) ∧
    (listen ⟨⟨1, false, [], []⟩, [], ListenerState.Stopped, true, false, 1⟩
      = (⟨⟨1, false, [], []⟩, [], ListenerState.Stopped, true, false, 1⟩,
         false)) ∧
    (listenerRun 3 ⟨⟨1, false, [], []⟩, [], ListenerState.Stopped, true,
        false, 1⟩
      = ([], ⟨⟨1, false, [], []⟩, [], ListenerState.Stopped, true,
          false, 1⟩)) ∧
    ((stop ⟨⟨1, false, [], []⟩, [], ListenerState.Stopped, true,
        false, 1⟩).state = ListenerState.Stopped) :=
  C7_lifecycle ⟨⟨1, false, [], []⟩, [], ListenerState.Listening, false, true, 1⟩
    ⟨⟨1, false, [], []⟩, [], ListenerState.Stopped, true, false, 1⟩ 3 rfl rfl

/-- Modelled from the spec: the OS device layer seen by open_port: for each
path and baud rate, either a handle (the device exists and can be configured
at that rate) or nothing (nonexistent path, or configuration failure). -/
structure OSModel where
  openDevice : String → Nat → Option Nat

/-- Modelled from the spec: open_port yields a fresh Port on success and
fails with IOError when the device cannot be opened or configured at the
given baud rate, in particular for every nonexistent path. -/
def open_port (os : OSModel) (path : String) (baud : Nat) :
    Except SerialError Port :=
  match os.openDevice path baud with
  | none => Except.error SerialError.IOError
  | some _ => Except.ok ⟨1, false, [], []⟩

/-- C8: on every path naming a device that cannot be opened or configured at
the requested baud rate, open_port fails with IOError and produces no Port
value. -/
theorem C8_open_port_ioerror (os : OSModel) (path : String) (baud : Nat)
    (h : os.openDevice path baud = none) :
    (open_port os path baud = Except.error SerialError.IOError) ∧
    (∀ p : Port, open_port os path baud ≠ Except.ok p) := by
  have ho : open_port os path baud = Except.error SerialError.IOError := by
    rw [open_port, h]
  exact ⟨ho, fun p hp => by rw [ho] at hp; exact Except.noConfusion hp⟩

/-- Witness for C8: an OS with no devices rejects the path of the demo
program with IOError. -/
theorem C8_open_port_ioerror_witness :
    (open_port ⟨fun _ _ => none⟩ "/dev/pts/3" 115000
        = Except.error SerialError.IOError) ∧
    (∀ p : Port, open_port ⟨fun _ _ => none⟩ "/dev/pts/3" 115000
        ≠ Except.ok p) :=
  C8_open_port_ioerror ⟨fun _ _ => none⟩ "/dev/pts/3" 115000 rfl

/-- C9: deriving a ListenerBuilder from a Port and starting the built
Listener does not consume or invalidate the Port value: a direct read_line
on the original Port is still accepted and returns an ordinary ReadResult,
here NoErr with the delivered line, exactly the sequence the demo program
performs.  The single-reader invariant is not structurally enforced. -/
theorem C9_direct_read_not_prevented (p : Port) (ud : Option Nat) (cb : Nat)
    (S : List Char) (hS : '\n' ∉ S) (hp : p.disconnected = false)
    (ha : p.accum = []) (hi : p.incoming = []) :
    ((listen (build (add_read_callback (create_listener_builder p) ud cb))).1.state
        = ListenerState.Listening) ∧
    ((read_line (deliver p (S ++ ['\n']))).1.result.error
        = SerialError.NoErr) ∧
    ((read_line (deliver p (S ++ ['\n']))).1.line = S ++ ['\n']) ∧
    ((read_line (deliver p (S ++ ['\n']))).1.result.bytes_read
        = S.length + 1) := by
  have hr := read_line_single_chunk p S hS hp ha hi
  exact ⟨rfl, by rw [hr], by rw [hr], by rw [hr]⟩

/-- Witness for C9 at a concrete port, with the listener running, reading
the line "ok". -/
theorem C9_direct_read_not_prevented_witness :
    ((listen (build (add_read_callback
        (create_listener_builder ⟨1, false, [], []⟩) none 3))).1.state
        = ListenerState.Listening) ∧
    ((read_line (deliver ⟨1, false, [], []⟩
        (['o', 'k'] ++ ['\n']))).1.result.error = SerialError.NoErr) ∧
    ((read_line (deliver ⟨1, false, [], []⟩
        (['o', 'k'] ++ ['\n']))).1.line = ['o', 'k'] ++ ['\n']) ∧
    ((read_line (deliver ⟨1, false, [], []⟩
        (['o', 'k'] ++ ['\n']))).1.result.bytes_read
        = List.length ['o', 'k'] + 1) :=
  C9_direct_read_not_prevented ⟨1, false, [], []⟩ none 3 ['o', 'k']
    (by decide) rfl rfl rfl

/-- C10: for every dispatched line the buffer visible through the data
pointer is the line bytes followed by a NUL terminator, usable as a C
string, alongside the explicit length argument equal to the line length; a
null userdata is accepted by add_read_callback and every entry gets its own
userdata back unmodified, null included. -/
theorem C10_callback_abi (registry : List CallbackEntry) (line : List Char)
    (b : ListenerBuilder) (cb : Nat) :
    (∀ inv ∈ dispatchLine registry line,
        inv.buffer = line ++ [NUL] ∧ inv.length = line.length) ∧
    ((add_read_callback b none cb).registry = b.registry ++ [⟨none, cb⟩]) ∧
    ((dispatchLine registry line).map Invocation.userdata
        = registry.map CallbackEntry.userdata) := by
  refine ⟨?_, rfl, ?_⟩
  · intro inv hinv
    obtain ⟨e, he, hrfl⟩ := List.mem_map.mp hinv
    rw [← hrfl]
    exact ⟨rfl, rfl⟩
  · rw [dispatchLine, List.map_map]
    rfl

/-- Witness for C10 on a registry holding a null-userdata entry and the
line "ok". -/
theorem C10_callback_abi_witness :
    (∀ inv ∈ dispatchLine [⟨none, 7⟩] ['o', 'k', '\n'],
        inv.buffer = ['o', 'k', '\n'] ++ [NUL] ∧
        inv.length = List.length ['o', 'k', '\n']) ∧
    ((add_read_callback ⟨⟨1, false, [], []⟩, []⟩ none 7).registry
        = [] ++ [⟨none, 7⟩]) ∧
    ((dispatchLine [⟨none, 7⟩] ['o', 'k', '\n']).map Invocation.userdata
        = List.map CallbackEntry.userdata [⟨none, 7⟩]) :=
  C10_callback_abi [⟨none, 7⟩] ['o', 'k', '\n'] ⟨⟨1, false, [], []⟩, []⟩ 7

end Serialcxx
